import Mathlib

/-!
Shallow embedding of neomutt's `group.c` (email address groups): the
name-keyed group registry, group contexts, membership mutation and the
matching algorithm.  Groups live in an explicit heap keyed by a numeric
id (modelling pointer identity); the registry hash table keyed by group
name coincides with the heap because every group is inserted under its
own name at creation and deleted at destruction.

External collaborators (address-list utilities, the regex list and the
string comparison, which are repository code outside the examined file)
are modelled from the spec: the regex engine and the cross-reference
stripper are parameters (`Collab`), and the list-shape operations
(`mutt_addr_copy_list`, `mutt_addr_remove_from_list`,
`mutt_regexlist_add`, `mutt_regexlist_remove`, `mutt_regexlist_match`,
`mutt_str_strcasecmp`) are concrete functions following the spec's
collaborator contracts.
-/

set_option autoImplicit false

namespace MuttGroup

/-- An address record; the mailbox pointer may be null. -/
structure Address where
  mailbox : Option String
deriving DecidableEq, Repr

/-- One entry of a Regex List: pattern source and compile flags. -/
structure RegexItem where
  pattern : String
  flags : Int
deriving DecidableEq, Repr

/-- A Group: name, owned address list `as`, owned regex list `rs`
(field names follow `struct Group`). -/
structure Group where
  name : String
  as : List Address
  rs : List RegexItem
deriving DecidableEq, Repr

/-- Pointer identity of a heap-allocated Group. -/
abbrev GroupId := Nat

/-- The process state: the heap of live Groups (which, by construction,
is also the `Groups` hash table keyed by each group's name) and the
allocator counter. -/
structure State where
  groups : List (GroupId × Group)
  nextId : GroupId
deriving DecidableEq, Repr

/-- A GroupContext node list: non-owning references, possibly null. -/
abbrev Ctx := List (Option GroupId)

/-- The diagnostic buffer passed to regex compilation. -/
abbrev Buffer := Option String

/-- External collaborators that this file only calls through their
interface: the regex engine (compilation success, a compile diagnostic,
and matching) and `mutt_remove_xrefs` (stripping incoming address
records cross-referenced against the existing list). -/
structure Collab where
  compileOk : String → Bool
  diag : String → String
  rmatch : String → Int → String → Bool
  removeXrefs : List Address → List Address → List Address

/-- Modelled from the spec: `mutt_str_strcasecmp` equality, ASCII
case-insensitive comparison of two strings. -/
def asciiLower (c : Char) : Char :=
  if 'A' ≤ c ∧ c ≤ 'Z' then Char.ofNat (c.toNat + 32) else c

/-- Lower-case every character of a string (ASCII). -/
def strLower (s : String) : String :=
  String.mk (s.data.map asciiLower)

/-- Modelled from the spec: `mutt_str_strcasecmp(a, b) == 0`. -/
def strcasecmpEq (a b : String) : Bool :=
  strLower a = strLower b

/-- Modelled from the spec: `mutt_addr_copy_list` deep-copies an
address list; functionally the records are reproduced unchanged. -/
def mutt_addr_copy_list (a : List Address) : List Address := a

/-- Modelled from the spec: `remove_by_value(list, mailbox_string)`
removes every occurrence of the given mailbox (exact match on the
mailbox portion) from the list. -/
def mutt_addr_remove_from_list (as : List Address) (m : Option String) :
    List Address :=
  as.filter (fun x => x.mailbox ≠ m)

/-- Modelled from the spec: `mutt_regexlist_add` appends the compiled
pattern at the tail; an invalid pattern fails with a diagnostic written
to `err` and the list unchanged; an absent pattern is a silent no-op. -/
def mutt_regexlist_add (E : Collab) (rs : List RegexItem)
    (s : Option String) (flags : Int) (err : Buffer) :
    Int × List RegexItem × Buffer :=
  match s with
  | none => (0, rs, err)
  | some p =>
    if E.compileOk p then (0, rs ++ [⟨p, flags⟩], err)
    else (-1, rs, some (E.diag p))

/-- Modelled from the spec: `mutt_regexlist_remove` removes entries by
source string and fails (non-fatally) when the pattern is not present. -/
def mutt_regexlist_remove (rs : List RegexItem) (s : Option String) :
    Int × List RegexItem :=
  match s with
  | none => (-1, rs)
  | some p =>
    if rs.any (fun r => r.pattern = p) then
      (0, rs.filter (fun r => r.pattern ≠ p))
    else (-1, rs)

/-- Modelled from the spec: `mutt_regexlist_match` tests the patterns in
insertion order and short-circuits on the first match. -/
def mutt_regexlist_match (E : Collab) (rs : List RegexItem) (s : String) :
    Bool :=
  rs.any (fun r => E.rmatch r.pattern r.flags s)

/-- `mutt_hash_find(Groups, k)`: the registry lookup by group name. -/
def State.findName (st : State) (k : String) : Option GroupId :=
  (st.groups.find? (fun p => p.2.name = k)).map (fun p => p.1)

/-- Dereference a group pointer in the heap. -/
def State.find (st : State) (id : GroupId) : Option Group :=
  (st.groups.find? (fun p => p.1 = id)).map (fun p => p.2)

/-- Overwrite the group a live pointer refers to. -/
def State.update (st : State) (id : GroupId) (g : Group) : State :=
  ⟨st.groups.map (fun p => if p.1 = id then (id, g) else p), st.nextId⟩

/-- `mutt_pattern_group`: null name yields a null group; otherwise look
the name up in the `Groups` hash and, when absent, allocate a fresh
empty Group under that name and insert it. -/
def mutt_pattern_group (k : Option String) (st : State) :
    Option GroupId × State :=
  match k with
  | none => (none, st)
  | some k =>
    match st.findName k with
    | some id => (some id, st)
    | none =>
      (some st.nextId,
       ⟨st.groups ++ [(st.nextId, ⟨k, [], []⟩)], st.nextId + 1⟩)

/-- `group_remove`: null-safe; deletes the group from the hash by its
name and frees its lists and the group itself (here: drops the heap
entry). -/
def group_remove (g : Option GroupId) (st : State) : State :=
  match g with
  | none => st
  | some id => ⟨st.groups.filter (fun p => p.1 ≠ id), st.nextId⟩

/-- `empty_group` as used at its call sites: the C function returns -1
for a null group and `!g->as && !g->rs` otherwise, and every caller
tests the result for truthiness, so -1 counts as true.  A context never
references a freed group (contexts are duplicate-free), so the value on
a dangling id is arbitrary. -/
def empty_group_test (st : State) (g : Option GroupId) : Bool :=
  match g with
  | none => true
  | some id =>
    match st.find id with
    | none => true
    | some grp => grp.as = [] && grp.rs = []

/-- `mutt_group_context_clear`: destroy every referenced Group, free
every node, return 0; a null context pointer iterates zero times.  The
third component is the final `*ctx`. -/
def mutt_group_context_clear (octx : Option Ctx) (st : State) :
    Int × State × Option Ctx :=
  match octx with
  | none => (0, st, none)
  | some l => (0, l.foldl (fun s g => group_remove g s) st, some [])

/-- `mutt_group_context_add`: scan for the group by pointer equality;
if absent, append a fresh node at the tail. -/
def mutt_group_context_add (ctx : Ctx) (g : Option GroupId) : Ctx :=
  match ctx with
  | [] => [g]
  | h :: t => if h = g then h :: t else h :: mutt_group_context_add t g

/-- `mutt_group_context_destroy`: free the node list only; the heap is
never consulted. -/
def mutt_group_context_destroy (ctx : Ctx) (st : State) : Ctx × State :=
  match ctx with
  | [] => ([], st)
  | _ :: t => mutt_group_context_destroy t st

/-- `group_add_addrlist`: null-safe on both arguments; appends at the
tail of `g->as` the deep copy of `a` as filtered by
`mutt_remove_xrefs(g->as, copy)`. -/
def group_add_addrlist (E : Collab) (g : Option GroupId)
    (a : List Address) (st : State) : State :=
  match g with
  | none => st
  | some id =>
    if a = [] then st
    else
      match st.find id with
      | none => st
      | some grp =>
        st.update id
          { grp with
            as := grp.as ++ E.removeXrefs grp.as (mutt_addr_copy_list a) }

/-- `group_remove_addrlist`: fails on a null group or list; otherwise
removes, for each entry of `a`, all occurrences of its mailbox from
`g->as`. -/
def group_remove_addrlist (g : Option GroupId) (a : List Address)
    (st : State) : Int × State :=
  match g with
  | none => (-1, st)
  | some id =>
    if a = [] then (-1, st)
    else
      match st.find id with
      | none => (-1, st)
      | some grp =>
        (0, st.update id
              { grp with
                as := a.foldl
                  (fun l p => mutt_addr_remove_from_list l p.mailbox)
                  grp.as })

/-- `group_add_regex`: delegates to `mutt_regexlist_add` on `&g->rs`
with NO null guard on `g`; the null (or dangling) dereference is
modelled as `none`. -/
def group_add_regex (E : Collab) (g : Option GroupId) (s : Option String)
    (flags : Int) (err : Buffer) (st : State) :
    Option (Int × State × Buffer) :=
  match g with
  | none => none
  | some id =>
    match st.find id with
    | none => none
    | some grp =>
      let r := mutt_regexlist_add E grp.rs s flags err
      some (r.1, st.update id { grp with rs := r.2.1 }, r.2.2)

/-- `group_remove_regex`: delegates to `mutt_regexlist_remove` on
`&g->rs`, again with no null guard on `g`. -/
def group_remove_regex (g : Option GroupId) (s : Option String)
    (st : State) : Option (Int × State) :=
  match g with
  | none => none
  | some id =>
    match st.find id with
    | none => none
    | some grp =>
      let r := mutt_regexlist_remove grp.rs s
      some (r.1, st.update id { grp with rs := r.2 })

/-- `mutt_group_context_add_addrlist`: fan `group_add_addrlist` out to
every node. -/
def mutt_group_context_add_addrlist (E : Collab) (ctx : Ctx)
    (a : List Address) (st : State) : State :=
  match ctx with
  | [] => st
  | g :: rest =>
    mutt_group_context_add_addrlist E rest a (group_add_addrlist E g a st)

/-- `mutt_group_context_remove_addrlist`: `for (; (!rc) && ctx; ...)`
with the body updating `rc` and then unconditionally running the
destroy-on-empty check on the current node, even when `rc` just became
nonzero. -/
def mutt_group_context_remove_addrlist (ctx : Ctx) (a : List Address)
    (st : State) : Int × State :=
  match ctx with
  | [] => (0, st)
  | g :: rest =>
    let r := group_remove_addrlist g a st
    let st2 := if empty_group_test r.2 g then group_remove g r.2 else r.2
    if r.1 = 0 then mutt_group_context_remove_addrlist rest a st2
    else (r.1, st2)

/-- `mutt_group_context_add_regex`: fan out, short-circuiting on the
first nonzero return; no emptiness check here.  A null group reference
in the context crashes in `group_add_regex` (`none`). -/
def mutt_group_context_add_regex (E : Collab) (ctx : Ctx)
    (s : Option String) (flags : Int) (err : Buffer) (st : State) :
    Option (Int × State × Buffer) :=
  match ctx with
  | [] => some (0, st, err)
  | g :: rest =>
    match group_add_regex E g s flags err st with
    | none => none
    | some r =>
      if r.1 = 0 then
        mutt_group_context_add_regex E rest s flags r.2.2 r.2.1
      else some r

/-- `mutt_group_context_remove_regex`: like the addrlist removal, the
destroy-on-empty check runs on the current node even when the removal
just failed; a null group reference crashes in `group_remove_regex`. -/
def mutt_group_context_remove_regex (ctx : Ctx) (s : Option String)
    (st : State) : Option (Int × State) :=
  match ctx with
  | [] => some (0, st)
  | g :: rest =>
    match group_remove_regex g s st with
    | none => none
    | some r =>
      let st2 := if empty_group_test r.2 g then group_remove g r.2 else r.2
      if r.1 = 0 then mutt_group_context_remove_regex rest s st2
      else some (r.1, st2)

/-- `mutt_group_match`: false on a null group or string; otherwise try
the regex list first, then scan the address list in order for a
case-insensitive mailbox match. -/
def mutt_group_match (E : Collab) (g : Option GroupId) (s : Option String)
    (st : State) : Bool :=
  match g, s with
  | some id, some str =>
    match st.find id with
    | none => false
    | some grp =>
      if mutt_regexlist_match E grp.rs str then true
      else grp.as.any (fun ap =>
        match ap.mailbox with
        | none => false
        | some m => strcasecmpEq str m)
  | _, _ => false

/-- Registry well-formedness: heap ids are pairwise distinct, group
names are pairwise distinct, and every live id is below the allocator
counter.  Holds for the initial empty state and is preserved by every
operation. -/
def WF (st : State) : Prop :=
  (st.groups.map (fun p => p.1)).Nodup ∧
  (st.groups.map (fun p => p.2.name)).Nodup ∧
  ∀ p ∈ st.groups, p.1 < st.nextId

instance (st : State) : Decidable (WF st) := by
  unfold WF; infer_instance

/-! ### Heap lemmas -/

theorem find?_entry_update {l : List (GroupId × Group)} {id id' : GroupId}
    {g : Group} (h : id ≠ id') :
    (l.map (fun p => if p.1 = id' then (id', g) else p)).find?
        (fun p => p.1 = id) =
      l.find? (fun p => p.1 = id) := by
  have hpred : ((fun p => decide (p.1 = id)) ∘
      fun p : GroupId × Group => if p.1 = id' then (id', g) else p) =
      fun p : GroupId × Group => decide (p.1 = id) := by
    funext p
    by_cases hp : p.1 = id' <;> simp [hp]
  rw [List.find?_map, hpred]
  cases hf : l.find? (fun p => decide (p.1 = id)) with
  | none => simp
  | some q =>
    have hq : q.1 = id := by simpa using List.find?_some hf
    simp [hq, fun hc : id = id' => h hc]

theorem find_update_ne {st : State} {id id' : GroupId} {g : Group}
    (h : id ≠ id') : (st.update id' g).find id = st.find id := by
  unfold State.find State.update
  rw [find?_entry_update h]

theorem find?_entry_update_self {l : List (GroupId × Group)} {id : GroupId}
    {grp g : Group}
    (h : l.find? (fun p => p.1 = id) = some (id, grp)) :
    (l.map (fun p => if p.1 = id then (id, g) else p)).find?
        (fun p => p.1 = id) = some (id, g) := by
  have hpred : ((fun p => decide (p.1 = id)) ∘
      fun p : GroupId × Group => if p.1 = id then (id, g) else p) =
      fun p : GroupId × Group => decide (p.1 = id) := by
    funext p
    by_cases hp : p.1 = id <;> simp [hp]
  rw [List.find?_map, hpred, h]
  simp

theorem find?_key {l : List (GroupId × Group)} {id : GroupId}
    {q : GroupId × Group} (h : l.find? (fun p => p.1 = id) = some q) :
    q = (id, q.2) := by
  have := List.find?_some h
  simp at this
  cases q
  simp_all

theorem find_update_self {st : State} {id : GroupId} {grp g : Group}
    (h : st.find id = some grp) : (st.update id g).find id = some g := by
  unfold State.find State.update
  unfold State.find at h
  cases hf : st.groups.find? (fun p => p.1 = id) with
  | none => rw [hf] at h; simp at h
  | some q =>
    rw [hf] at h
    have hk := find?_key hf
    simp at h
    rw [hk, h] at hf
    rw [find?_entry_update_self hf]
    simp

theorem update_self_eq {st : State} {id : GroupId} {grp : Group}
    (hn : (st.groups.map (fun p => p.1)).Nodup)
    (h : st.find id = some grp) : st.update id grp = st := by
  unfold State.find at h
  unfold State.update
  obtain ⟨e, hf, he2⟩ : ∃ e, st.groups.find? (fun p => p.1 = id) = some e ∧
      e.2 = grp := by
    cases hf : st.groups.find? (fun p => p.1 = id) with
    | none => rw [hf] at h; simp at h
    | some e => rw [hf] at h; exact ⟨e, rfl, by simpa using h⟩
  have hee : e = (id, grp) := by
    rw [find?_key hf, he2]
  have hmem : e ∈ st.groups := List.mem_of_find?_eq_some hf
  have key : ∀ q ∈ st.groups,
      (if q.1 = id then (id, grp) else q) = q := by
    intro q hq
    by_cases hqi : q.1 = id
    · have hqe : q = e := by
        apply List.inj_on_of_nodup_map hn hq hmem
        rw [hee]
        exact hqi
      rw [if_pos hqi, hqe, hee]
    · rw [if_neg hqi]
  cases st with
  | mk l n =>
    simp only [State.mk.injEq, and_true]
    rw [List.map_congr_left key]
    simp

theorem find?_cons_true {p : GroupId × Group → Bool} {a : GroupId × Group}
    {l : List (GroupId × Group)} (h : p a = true) :
    (a :: l).find? p = some a := by
  simp [List.find?, h]

theorem find?_cons_false {p : GroupId × Group → Bool} {a : GroupId × Group}
    {l : List (GroupId × Group)} (h : p a = false) :
    (a :: l).find? p = l.find? p := by
  simp [List.find?, h]

theorem find?_filter_self {l : List (GroupId × Group)} {id : GroupId} :
    (l.filter (fun p => p.1 ≠ id)).find? (fun p => p.1 = id) = none := by
  rw [List.find?_eq_none]
  intro p hp
  simp at hp ⊢
  exact hp.2

theorem find_remove_self {st : State} {id : GroupId} :
    (group_remove (some id) st).find id = none := by
  unfold group_remove State.find
  simp only
  rw [find?_filter_self]
  rfl

theorem find?_filter_ne {l : List (GroupId × Group)} {id id' : GroupId}
    (h : id ≠ id') :
    (l.filter (fun p => p.1 ≠ id')).find? (fun p => p.1 = id) =
      l.find? (fun p => p.1 = id) := by
  induction l with
  | nil => simp
  | cons p t ih =>
    rw [List.filter_cons]
    by_cases hp : p.1 = id'
    · have hq : ¬ p.1 = id := fun hc => h (by rw [← hc]; exact hp)
      rw [if_neg (by simp [hp]), find?_cons_false (by simp [hq])]
      exact ih
    · rw [if_pos (by simp [hp])]
      by_cases hq : p.1 = id
      · rw [find?_cons_true (p := fun p => decide (p.1 = id)) (by simp [hq]),
          find?_cons_true (by simp [hq])]
      · rw [find?_cons_false (p := fun p => decide (p.1 = id)) (by simp [hq]),
          find?_cons_false (by simp [hq])]
        exact ih

theorem find_remove_ne {st : State} {id id' : GroupId} (h : id ≠ id') :
    (group_remove (some id') st).find id = st.find id := by
  unfold group_remove State.find
  simp only
  rw [find?_filter_ne h]

theorem find_remove_none {st : State} {g : Option GroupId} {id : GroupId}
    (h : st.find id = none) : (group_remove g st).find id = none := by
  cases g with
  | none => simpa [group_remove]
  | some id' =>
    rcases eq_or_ne id id' with rfl | hne
    · exact find_remove_self
    · rw [find_remove_ne hne]; exact h

theorem find_none_elim {st : State} {id : GroupId} (h : st.find id = none) :
    ∀ p ∈ st.groups, ¬ p.1 = id := by
  unfold State.find at h
  intro p hp
  have hfn : st.groups.find? (fun p => decide (p.1 = id)) = none := by
    cases hf : st.groups.find? (fun p => decide (p.1 = id)) with
    | none => rfl
    | some q => rw [hf] at h; simp at h
  have := List.find?_eq_none.mp hfn p hp
  simpa using this

theorem remove_absent_noop {st : State} {id : GroupId}
    (h : st.find id = none) : group_remove (some id) st = st := by
  unfold group_remove
  cases st with
  | mk l n =>
    simp only [State.mk.injEq, and_true]
    rw [List.filter_eq_self]
    intro p hp
    simpa using find_none_elim h p hp

theorem find_update_none {st : State} {id id' : GroupId} {g : Group}
    (h : st.find id = none) : (st.update id' g).find id = none := by
  rcases eq_or_ne id id' with rfl | hne
  · unfold State.find State.update
    unfold State.find at h
    simp only
    have hpred : ((fun p => decide (p.1 = id)) ∘
        fun p : GroupId × Group => if p.1 = id then (id, g) else p) =
        fun p : GroupId × Group => decide (p.1 = id) := by
      funext p
      by_cases hp : p.1 = id <;> simp [hp]
    have hfn : st.groups.find? (fun p => decide (p.1 = id)) = none := by
      cases hf : st.groups.find? (fun p => decide (p.1 = id)) with
      | none => rfl
      | some q => rw [hf] at h; simp at h
    rw [List.find?_map, hpred, hfn]
    rfl
  · rw [find_update_ne hne]; exact h

theorem clear_fold_none {l : Ctx} {st : State} {id : GroupId}
    (h : st.find id = none) :
    (l.foldl (fun s g => group_remove g s) st).find id = none := by
  induction l generalizing st with
  | nil => simpa
  | cons g t ih =>
    simp only [List.foldl_cons]
    exact ih (find_remove_none h)

theorem clear_fold_removes {l : Ctx} {st : State} {id : GroupId}
    (h : some id ∈ l) :
    (l.foldl (fun s g => group_remove g s) st).find id = none := by
  induction l generalizing st with
  | nil => simp at h
  | cons g t ih =>
    simp only [List.foldl_cons]
    rcases List.mem_cons.mp h with he | ht
    · rw [← he]
      exact clear_fold_none find_remove_self
    · exact ih ht

/-- A non-null context reference to a live group. -/
def live_ref (st : State) (g : Option GroupId) : Prop :=
  ∃ id grp, g = some id ∧ st.find id = some grp

theorem context_add_regex_reaches_null (E : Collab) (p : String)
    (flags : Int) (rest : Ctx) (hok : E.compileOk p = true) :
    ∀ (pre : Ctx) (st : State) (err : Buffer),
      (∀ g ∈ pre, live_ref st g) →
      mutt_group_context_add_regex E (pre ++ none :: rest) (some p)
        flags err st = none := by
  intro pre
  induction pre with
  | nil => intro st err _; rfl
  | cons g pre' ih =>
    intro st err hlive
    obtain ⟨id, grp, hg, hfind⟩ := hlive g (List.mem_cons_self g pre')
    subst hg
    have hstep : group_add_regex E (some id) (some p) flags err st =
        some (0, st.update id { grp with rs := grp.rs ++ [⟨p, flags⟩] },
          err) := by
      simp [group_add_regex, hfind, mutt_regexlist_add, hok]
    have hlive' : ∀ g' ∈ pre',
        live_ref (st.update id { grp with rs := grp.rs ++ [⟨p, flags⟩] })
          g' := by
      intro g' hg'
      obtain ⟨id', grp', hgg, hf'⟩ := hlive g' (List.mem_cons_of_mem _ hg')
      subst hgg
      rcases eq_or_ne id' id with rfl | hne
      · exact ⟨id', _, rfl, find_update_self hf'⟩
      · exact ⟨id', grp', rfl, by rw [find_update_ne hne]; exact hf'⟩
    rw [List.cons_append]
    simp only [mutt_group_context_add_regex]
    rw [hstep]
    simpa using ih _ err hlive'

theorem findName_none_elim {st : State} {k : String}
    (h : st.findName k = none) : ∀ p ∈ st.groups, ¬ p.2.name = k := by
  unfold State.findName at h
  intro p hp
  have hfn : st.groups.find? (fun p => decide (p.2.name = k)) = none := by
    cases hf : st.groups.find? (fun p => decide (p.2.name = k)) with
    | none => rfl
    | some q => rw [hf] at h; simp at h
  have := List.find?_eq_none.mp hfn p hp
  simpa using this

theorem findName_some_elim {st : State} {k : String} {i : GroupId}
    (h : st.findName k = some i) :
    ∃ p, p ∈ st.groups ∧ p.1 = i ∧ p.2.name = k := by
  unfold State.findName at h
  cases hf : st.groups.find? (fun p => decide (p.2.name = k)) with
  | none => rw [hf] at h; simp at h
  | some q =>
    rw [hf] at h
    simp at h
    exact ⟨q, List.mem_of_find?_eq_some hf, h,
      by simpa using List.find?_some hf⟩

theorem find?_name_append {l : List (GroupId × Group)}
    {e : GroupId × Group} {k : String}
    (h : ∀ p ∈ l, ¬ p.2.name = k) (he : e.2.name = k) :
    (l ++ [e]).find? (fun p => p.2.name = k) = some e := by
  induction l with
  | nil =>
    simp only [List.nil_append]
    exact find?_cons_true (by simpa using he)
  | cons p t ih =>
    rw [List.cons_append,
      find?_cons_false (by simpa using h p (List.mem_cons_self p t))]
    exact ih (fun q hq => h q (List.mem_cons_of_mem _ hq))

theorem findName_append_new {st : State} {k : String}
    (h : st.findName k = none) :
    State.findName
        ⟨st.groups ++ [(st.nextId, ⟨k, [], []⟩)], st.nextId + 1⟩ k =
      some st.nextId := by
  unfold State.findName
  simp only
  rw [find?_name_append (findName_none_elim h) rfl]
  rfl

theorem WF_mutt_pattern_group {st : State} {k : String} (hwf : WF st) :
    WF (mutt_pattern_group (some k) st).2 := by
  obtain ⟨h1, h2, h3⟩ := hwf
  cases hf : st.findName k with
  | some id =>
    simp only [mutt_pattern_group, hf]
    exact ⟨h1, h2, h3⟩
  | none =>
    simp only [mutt_pattern_group, hf]
    refine ⟨?_, ?_, ?_⟩
    · rw [List.map_append, List.nodup_append]
      refine ⟨h1, by simp, ?_⟩
      intro x hx hy
      simp at hy
      simp only [List.mem_map] at hx
      obtain ⟨p, hp, hpx⟩ := hx
      have hlt := h3 p hp
      rw [hpx, hy] at hlt
      exact Nat.lt_irrefl _ hlt
    · rw [List.map_append, List.nodup_append]
      refine ⟨h2, by simp, ?_⟩
      intro x hx hy
      simp at hy
      simp only [List.mem_map] at hx
      obtain ⟨p, hp, hpx⟩ := hx
      exact findName_none_elim hf p hp (by rw [hpx, hy])
    · intro p hp
      rcases List.mem_append.mp hp with hp1 | hp2
      · exact Nat.lt_trans (h3 p hp1) (Nat.lt_succ_self _)
      · simp at hp2
        rw [hp2]
        exact Nat.lt_succ_self _

theorem remove_addrlist_cons {g : Option GroupId} {rest : Ctx}
    {a : List Address} {st : State} :
    mutt_group_context_remove_addrlist (g :: rest) a st =
      if (group_remove_addrlist g a st).1 = 0 then
        mutt_group_context_remove_addrlist rest a
          (if empty_group_test (group_remove_addrlist g a st).2 g then
            group_remove g (group_remove_addrlist g a st).2
          else (group_remove_addrlist g a st).2)
      else
        ((group_remove_addrlist g a st).1,
         if empty_group_test (group_remove_addrlist g a st).2 g then
           group_remove g (group_remove_addrlist g a st).2
         else (group_remove_addrlist g a st).2) := rfl

theorem group_remove_addrlist_state {g : Option GroupId}
    {a : List Address} {st : State} :
    (group_remove_addrlist g a st).2 = st ∨
    ∃ id grp, g = some id ∧
      (group_remove_addrlist g a st).2 = st.update id grp := by
  cases g with
  | none => exact Or.inl rfl
  | some id =>
    by_cases ha : a = []
    · exact Or.inl (by simp [group_remove_addrlist, ha])
    · cases hf : st.find id with
      | none => exact Or.inl (by simp [group_remove_addrlist, ha, hf])
      | some grp =>
        exact Or.inr ⟨id,
          { grp with
            as := a.foldl
              (fun l p => mutt_addr_remove_from_list l p.mailbox) grp.as },
          rfl, by simp [group_remove_addrlist, ha, hf]⟩

theorem group_remove_addrlist_success {id : GroupId} {a : List Address}
    {st : State} (h : (group_remove_addrlist (some id) a st).1 = 0) :
    ∃ grp, st.find id = some grp ∧
      (group_remove_addrlist (some id) a st).2 =
        st.update id { grp with
          as := a.foldl
            (fun l p => mutt_addr_remove_from_list l p.mailbox) grp.as } := by
  by_cases ha : a = []
  · exfalso
    simp [group_remove_addrlist, ha] at h
  · cases hf : st.find id with
    | none =>
      exfalso
      simp [group_remove_addrlist, ha, hf] at h
    | some grp => exact ⟨grp, rfl, by simp [group_remove_addrlist, ha, hf]⟩

theorem remove_addrlist_ctx_preserves_none {a : List Address}
    {i : GroupId} :
    ∀ (ctx : Ctx) (st : State), st.find i = none →
      ((mutt_group_context_remove_addrlist ctx a st).2).find i = none := by
  intro ctx
  induction ctx with
  | nil => intro st h; exact h
  | cons g rest ih =>
    intro st h
    have h1 : ((group_remove_addrlist g a st).2).find i = none := by
      rcases @group_remove_addrlist_state g a st with
        he | ⟨id, grp, hg, he⟩
      · rw [he]; exact h
      · rw [he]; exact find_update_none h
    have h2 : ((if empty_group_test (group_remove_addrlist g a st).2 g then
        group_remove g (group_remove_addrlist g a st).2
        else (group_remove_addrlist g a st).2)).find i = none := by
      by_cases hemp :
          empty_group_test (group_remove_addrlist g a st).2 g = true
      · rw [if_pos hemp]; exact find_remove_none h1
      · rw [if_neg hemp]; exact h1
    rw [remove_addrlist_cons]
    by_cases hrc : (group_remove_addrlist g a st).1 = 0
    · rw [if_pos hrc]
      exact ih _ h2
    · rw [if_neg hrc]
      exact h2

theorem remove_addrlist_ctx_preserves_other {a : List Address}
    {i : GroupId} :
    ∀ (ctx : Ctx) (st : State), (some i : Option GroupId) ∉ ctx →
      ((mutt_group_context_remove_addrlist ctx a st).2).find i =
        st.find i := by
  intro ctx
  induction ctx with
  | nil => intro st _; rfl
  | cons g rest ih =>
    intro st hni
    have hg : g ≠ some i := fun hc => hni (hc ▸ List.mem_cons_self g rest)
    have hni2 : (some i : Option GroupId) ∉ rest :=
      fun hc => hni (List.mem_cons_of_mem _ hc)
    have h1 : ((group_remove_addrlist g a st).2).find i = st.find i := by
      rcases @group_remove_addrlist_state g a st with
        he | ⟨id, grp, hgid, he⟩
      · rw [he]
      · have hii : i ≠ id := by
          intro hc
          exact hg (by rw [hgid, hc])
        rw [he, find_update_ne hii]
    have h2 : ((if empty_group_test (group_remove_addrlist g a st).2 g then
        group_remove g (group_remove_addrlist g a st).2
        else (group_remove_addrlist g a st).2)).find i = st.find i := by
      by_cases hemp :
          empty_group_test (group_remove_addrlist g a st).2 g = true
      · rw [if_pos hemp]
        cases g with
        | none => exact h1
        | some id =>
          have hii : i ≠ id := by
            intro hc
            exact hg (by rw [hc])
          rw [find_remove_ne hii]
          exact h1
      · rw [if_neg hemp]; exact h1
    rw [remove_addrlist_cons]
    by_cases hrc : (group_remove_addrlist g a st).1 = 0
    · rw [if_pos hrc]
      exact (ih _ hni2).trans h2
    · rw [if_neg hrc]
      exact h2

theorem remove_addrlist_no_empty_survivor :
    ∀ (ctx : Ctx) (a : List Address) (st st' : State),
      mutt_group_context_remove_addrlist ctx a st = (0, st') →
      ∀ i grp, some i ∈ ctx → st'.find i = some grp →
        ¬(grp.as = [] ∧ grp.rs = []) := by
  intro ctx
  induction ctx with
  | nil =>
    intro a st st' h i grp hmem
    simp at hmem
  | cons g rest ih =>
    intro a st st' h i grp hmem hfind hempty
    rw [remove_addrlist_cons] at h
    by_cases hrc : (group_remove_addrlist g a st).1 = 0
    · rw [if_pos hrc] at h
      rcases List.mem_cons.mp hmem with hgi | hrest
      · subst hgi
        by_cases hemp :
            empty_group_test (group_remove_addrlist (some i) a st).2
              (some i) = true
        · have hnone : ((if empty_group_test
              (group_remove_addrlist (some i) a st).2 (some i) then
                group_remove (some i) (group_remove_addrlist (some i) a st).2
              else (group_remove_addrlist (some i) a st).2)).find i =
              none := by
            rw [if_pos hemp]
            exact find_remove_self
          have hpres :=
            @remove_addrlist_ctx_preserves_none a i rest _ hnone
          rw [h] at hpres
          rw [hfind] at hpres
          exact Option.noConfusion hpres
        · obtain ⟨grp0, hf0, hstate⟩ := group_remove_addrlist_success hrc
          have hfr : ((group_remove_addrlist (some i) a st).2).find i =
              some { grp0 with
                as := a.foldl
                  (fun (l : List Address) (p : Address) =>
                    mutt_addr_remove_from_list l p.mailbox)
                  grp0.as } := by
            rw [hstate]
            exact find_update_self hf0
          have hne2 : ¬(({ grp0 with
              as := a.foldl
                (fun (l : List Address) (p : Address) =>
                  mutt_addr_remove_from_list l p.mailbox)
                grp0.as } : Group).as = [] ∧ grp0.rs = []) := by
            intro hc
            apply hemp
            have hc1 : List.foldl
                (fun l p => mutt_addr_remove_from_list l p.mailbox)
                grp0.as a = [] := hc.1
            simp [empty_group_test, hfr, hc1, hc.2]
          by_cases hir : (some i : Option GroupId) ∈ rest
          · exact ih a _ st' h i grp hir hfind hempty
          · have hpres :=
              @remove_addrlist_ctx_preserves_other a i rest
                (if empty_group_test
                    (group_remove_addrlist (some i) a st).2 (some i) = true
                  then group_remove (some i)
                    (group_remove_addrlist (some i) a st).2
                  else (group_remove_addrlist (some i) a st).2) hir
            rw [h] at hpres
            rw [hfind, if_neg hemp, hfr] at hpres
            injection hpres with hgg
            rw [hgg] at hempty
            exact hne2 ⟨hempty.1, hempty.2⟩
      · exact ih a _ st' h i grp hrest hfind hempty
    · rw [if_neg hrc] at h
      injection h with h1 h2
      exact hrc h1

theorem remove_regex_cons {g : Option GroupId} {rest : Ctx}
    {s : Option String} {st : State} :
    mutt_group_context_remove_regex (g :: rest) s st =
      match group_remove_regex g s st with
      | none => none
      | some r =>
        if r.1 = 0 then
          mutt_group_context_remove_regex rest s
            (if empty_group_test r.2 g then group_remove g r.2 else r.2)
        else
          some (r.1,
            if empty_group_test r.2 g then group_remove g r.2 else r.2) :=
  rfl

theorem group_remove_regex_some {g : Option GroupId} {s : Option String}
    {st : State} {r : Int × State} (h : group_remove_regex g s st = some r) :
    ∃ id grp, g = some id ∧ st.find id = some grp ∧
      r = ((mutt_regexlist_remove grp.rs s).1,
        st.update id
          { grp with rs := (mutt_regexlist_remove grp.rs s).2 }) := by
  cases g with
  | none => exact absurd h (by simp [group_remove_regex])
  | some id =>
    cases hf : st.find id with
    | none =>
      exfalso
      simp [group_remove_regex, hf] at h
    | some grp =>
      simp only [group_remove_regex, hf] at h
      simp at h
      exact ⟨id, grp, rfl, hf, h.symm⟩

theorem remove_regex_ctx_preserves_none {s : Option String} {i : GroupId} :
    ∀ (ctx : Ctx) (st st' : State) (rc : Int),
      mutt_group_context_remove_regex ctx s st = some (rc, st') →
      st.find i = none → st'.find i = none := by
  intro ctx
  induction ctx with
  | nil =>
    intro st st' rc h hn
    simp [mutt_group_context_remove_regex] at h
    rw [← h.2]
    exact hn
  | cons g rest ih =>
    intro st st' rc h hn
    rw [remove_regex_cons] at h
    cases hg : group_remove_regex g s st with
    | none =>
      rw [hg] at h
      exact absurd h (by simp)
    | some r =>
      rw [hg] at h
      obtain ⟨id, grp, hgid, hfind, hr⟩ := group_remove_regex_some hg
      have h1 : r.2.find i = none := by
        rw [hr]
        exact find_update_none hn
      have h2 : ((if empty_group_test r.2 g then group_remove g r.2
          else r.2)).find i = none := by
        by_cases hemp : empty_group_test r.2 g = true
        · rw [if_pos hemp]; exact find_remove_none h1
        · rw [if_neg hemp]; exact h1
      simp only at h
      by_cases hrc0 : r.1 = 0
      · rw [if_pos hrc0] at h
        exact ih _ _ _ h h2
      · rw [if_neg hrc0] at h
        simp at h
        rw [← h.2]
        exact h2

theorem remove_regex_ctx_preserves_other {s : Option String}
    {i : GroupId} :
    ∀ (ctx : Ctx) (st st' : State) (rc : Int),
      (some i : Option GroupId) ∉ ctx →
      mutt_group_context_remove_regex ctx s st = some (rc, st') →
      st'.find i = st.find i := by
  intro ctx
  induction ctx with
  | nil =>
    intro st st' rc _ h
    simp [mutt_group_context_remove_regex] at h
    rw [← h.2]
  | cons g rest ih =>
    intro st st' rc hni h
    have hg : g ≠ some i := fun hc => hni (hc ▸ List.mem_cons_self g rest)
    have hni2 : (some i : Option GroupId) ∉ rest :=
      fun hc => hni (List.mem_cons_of_mem _ hc)
    rw [remove_regex_cons] at h
    cases hgr : group_remove_regex g s st with
    | none =>
      rw [hgr] at h
      exact absurd h (by simp)
    | some r =>
      rw [hgr] at h
      obtain ⟨id, grp, hgid, hfind, hr⟩ := group_remove_regex_some hgr
      have hii : i ≠ id := by
        intro hc
        exact hg (by rw [hgid, hc])
      have h1 : r.2.find i = st.find i := by
        rw [hr]
        exact find_update_ne hii
      have h2 : ((if empty_group_test r.2 g then group_remove g r.2
          else r.2)).find i = st.find i := by
        by_cases hemp : empty_group_test r.2 g = true
        · rw [if_pos hemp]
          rw [hgid]
          rw [find_remove_ne hii]
          exact h1
        · rw [if_neg hemp]; exact h1
      simp only at h
      by_cases hrc0 : r.1 = 0
      · rw [if_pos hrc0] at h
        exact (ih _ _ _ hni2 h).trans h2
      · rw [if_neg hrc0] at h
        simp at h
        rw [← h.2]
        exact h2

theorem remove_regex_no_empty_survivor :
    ∀ (ctx : Ctx) (s : Option String) (st st' : State),
      mutt_group_context_remove_regex ctx s st = some (0, st') →
      ∀ i grp, some i ∈ ctx → st'.find i = some grp →
        ¬(grp.as = [] ∧ grp.rs = []) := by
  intro ctx
  induction ctx with
  | nil =>
    intro s st st' h i grp hmem
    simp at hmem
  | cons g rest ih =>
    intro s st st' h i grp hmem hfind hempty
    rw [remove_regex_cons] at h
    cases hgr : group_remove_regex g s st with
    | none =>
      rw [hgr] at h
      exact absurd h (by simp)
    | some r =>
      rw [hgr] at h
      obtain ⟨id, grp0, hgid, hf0, hr⟩ := group_remove_regex_some hgr
      simp only at h
      by_cases hrc0 : r.1 = 0
      · rw [if_pos hrc0] at h
        rcases List.mem_cons.mp hmem with hgi | hrest
        · rw [hgid] at hgi
          have hid : id = i := by
            simpa using hgi.symm
          subst hid
          by_cases hemp : empty_group_test r.2 g = true
          · have hnone : ((if empty_group_test r.2 g then
                group_remove g r.2 else r.2)).find id = none := by
              rw [if_pos hemp, hgid]
              exact find_remove_self
            have hpres := remove_regex_ctx_preserves_none rest _ _ _ h hnone
            rw [hfind] at hpres
            exact Option.noConfusion hpres
          · have hfr : r.2.find id =
                some { grp0 with
                  rs := (mutt_regexlist_remove grp0.rs s).2 } := by
              rw [hr]
              exact find_update_self hf0
            have hne2 : ¬(grp0.as = [] ∧
                (mutt_regexlist_remove grp0.rs s).2 = []) := by
              intro hc
              apply hemp
              rw [hgid]
              simp [empty_group_test, hfr, hc.1, hc.2]
            by_cases hir : (some id : Option GroupId) ∈ rest
            · exact ih s _ st' h id grp hir hfind hempty
            · have hpres :=
                remove_regex_ctx_preserves_other rest _ _ _ hir h
              rw [hfind, if_neg hemp, hfr] at hpres
              injection hpres with hgg
              rw [hgg] at hempty
              exact hne2 ⟨hempty.1, hempty.2⟩
        · exact ih s _ st' h i grp hrest hfind hempty
      · rw [if_neg hrc0] at h
        simp at h
        exact hrc0 h.1

theorem filter_ne_update {l : List (GroupId × Group)} {id : GroupId}
    {g : Group} :
    (l.map (fun p => if p.1 = id then (id, g) else p)).filter
        (fun p => p.1 ≠ id) =
      l.filter (fun p => p.1 ≠ id) := by
  induction l with
  | nil => rfl
  | cons p t ih =>
    by_cases hp : p.1 = id
    · rw [List.map_cons, if_pos hp, List.filter_cons, List.filter_cons,
        if_neg (by simp), if_neg (by simp [hp])]
      exact ih
    · rw [List.map_cons, if_neg hp, List.filter_cons, List.filter_cons,
        if_pos (by simp [hp]), if_pos (by simp [hp]), ih]

theorem find_entry {st : State} {id : GroupId} {grp : Group}
    (h : st.find id = some grp) : (id, grp) ∈ st.groups := by
  unfold State.find at h
  cases hf : st.groups.find? (fun p => p.1 = id) with
  | none => rw [hf] at h; simp at h
  | some e =>
    rw [hf] at h
    simp at h
    have hk := find?_key hf
    have hmem := List.mem_of_find?_eq_some hf
    rw [hk, h] at hmem
    exact hmem

theorem findName_remove_unique {st : State} {id : GroupId} {grp : Group}
    (hwf : WF st) (h : st.find id = some grp) :
    ∀ q ∈ st.groups.filter (fun p => p.1 ≠ id), ¬ q.2.name = grp.name := by
  intro q hq hqn
  rw [List.mem_filter] at hq
  obtain ⟨hqmem, hqid⟩ := hq
  have hqe : q = (id, grp) :=
    List.inj_on_of_nodup_map hwf.2.1 hqmem (find_entry h) hqn
  rw [hqe] at hqid
  simp at hqid

theorem distinct_names_distinct_ids {st : State} {n n2 : String}
    {i : GroupId} (hwf : WF st) (hne : n ≠ n2)
    (h1 : st.findName n = some i) (h2 : st.findName n2 = some i) :
    False := by
  obtain ⟨e1, he1, he1i, he1n⟩ := findName_some_elim h1
  obtain ⟨e2, he2, he2i, he2n⟩ := findName_some_elim h2
  have hee : e1 = e2 :=
    List.inj_on_of_nodup_map hwf.1 he1 he2 (by rw [he1i, he2i])
  apply hne
  rw [← he1n, hee, he2n]

/-! ### Claims -/

/-- C9: `mutt_group_context_destroy` releases only the node list: the
result context is empty, the state is returned untouched, and so every
group previously reachable is unchanged. -/
theorem mutt_group_context_destroy_frame (ctx : Ctx) (st : State) :
    mutt_group_context_destroy ctx st = ([], st) ∧
    ∀ id grp, st.find id = some grp →
      ((mutt_group_context_destroy ctx st).2).find id = some grp := by
  have h : mutt_group_context_destroy ctx st = ([], st) := by
    induction ctx with
    | nil => rfl
    | cons g t ih => simpa [mutt_group_context_destroy] using ih
  exact ⟨h, fun id grp hf => by rw [h]; exact hf⟩

/-- Witness for C9 at a one-group registry and a two-node context. -/
theorem mutt_group_context_destroy_frame_witness :
    ((mutt_group_context_destroy [some 0, none]
        ⟨[(0, ⟨"team", [⟨some ("alice@example.com")⟩], []⟩)], 1⟩).2).find 0 =
      some ⟨"team", [⟨some ("alice@example.com")⟩], []⟩ :=
  (mutt_group_context_destroy_frame [some 0, none]
      ⟨[(0, ⟨"team", [⟨some ("alice@example.com")⟩], []⟩)], 1⟩).2 0
    ⟨"team", [⟨some ("alice@example.com")⟩], []⟩ (by decide)

/-- C5: `mutt_group_context_add` is idempotent on a group already
present by identity, otherwise appends at the tail; duplicate freedom
is preserved. -/
theorem mutt_group_context_add_spec (ctx : Ctx) (g : Option GroupId) :
    (g ∈ ctx → mutt_group_context_add ctx g = ctx) ∧
    (g ∉ ctx → mutt_group_context_add ctx g = ctx ++ [g]) ∧
    (ctx.Nodup → (mutt_group_context_add ctx g).Nodup) := by
  induction ctx with
  | nil =>
    refine ⟨fun h => absurd h (List.not_mem_nil g), fun _ => rfl, fun _ => ?_⟩
    simp [mutt_group_context_add]
  | cons h t ih =>
    refine ⟨?_, ?_, ?_⟩
    · intro hmem
      by_cases he : h = g
      · simp [mutt_group_context_add, he]
      · have hgt : g ∈ t := by
          rcases List.mem_cons.mp hmem with hc | hc
          · exact absurd hc.symm he
          · exact hc
        simp [mutt_group_context_add, he, ih.1 hgt]
    · intro hnm
      have he : ¬ h = g := fun hc => hnm (hc ▸ List.mem_cons_self h t)
      have hgt : g ∉ t := fun hc => hnm (List.mem_cons_of_mem _ hc)
      simp [mutt_group_context_add, he, ih.2.1 hgt]
    · intro hnd
      rcases List.nodup_cons.mp hnd with ⟨hht, hts⟩
      by_cases he : h = g
      · simpa [mutt_group_context_add, he] using hnd
      · simp only [mutt_group_context_add, if_neg he]
        rw [List.nodup_cons]
        refine ⟨?_, ih.2.2 hts⟩
        by_cases hgt : g ∈ t
        · rw [ih.1 hgt]; exact hht
        · rw [ih.2.1 hgt]
          simp [List.mem_append, hht, he]

/-- Witness for C5: re-adding a present reference is the identity, a
fresh reference lands at the tail. -/
theorem mutt_group_context_add_spec_witness :
    mutt_group_context_add [some 0, none] (some 0) = [some 0, none] ∧
    mutt_group_context_add [some 0] (some 1) = [some 0, some 1] :=
  ⟨(mutt_group_context_add_spec [some 0, none] (some 0)).1 (by decide),
   (mutt_group_context_add_spec [some 0] (some 1)).2.1 (by decide)⟩

/-- C7: `mutt_group_context_clear` returns 0 on every input (a null
context pointer included), destroys every referenced group, and leaves
the node list empty; `group_remove` is total, a no-op on a null or
absent group, and idempotent. -/
theorem mutt_group_context_clear_total (octx : Option Ctx) (st : State) :
    (mutt_group_context_clear octx st).1 = 0 ∧
    (∀ l, octx = some l →
      (mutt_group_context_clear octx st).2.2 = some [] ∧
      ∀ id, some id ∈ l →
        ((mutt_group_context_clear octx st).2.1).find id = none) ∧
    group_remove none st = st ∧
    (∀ id, st.find id = none → group_remove (some id) st = st) ∧
    (∀ g, group_remove g (group_remove g st) = group_remove g st) := by
  refine ⟨?_, ?_, rfl, ?_, ?_⟩
  · cases octx <;> rfl
  · intro l hl
    subst hl
    exact ⟨rfl, fun id hid => clear_fold_removes hid⟩
  · intro id h
    exact remove_absent_noop h
  · intro g
    cases g with
    | none => rfl
    | some id => exact remove_absent_noop find_remove_self

/-- Witness for C7: clearing a context destroys its group, and
removing an absent group changes nothing. -/
theorem mutt_group_context_clear_total_witness :
    ((mutt_group_context_clear (some [some 0, none])
        ⟨[(0, ⟨"g", [], []⟩)], 1⟩).2.1).find 0 = none ∧
    group_remove (some 7) ⟨[(0, ⟨"g", [], []⟩)], 1⟩ =
      ⟨[(0, ⟨"g", [], []⟩)], 1⟩ := by
  constructor
  · exact ((mutt_group_context_clear_total (some [some 0, none])
      ⟨[(0, ⟨"g", [], []⟩)], 1⟩).2.1 [some 0, none] rfl).2 0 (by decide)
  · exact (mutt_group_context_clear_total (some [some 0, none])
      ⟨[(0, ⟨"g", [], []⟩)], 1⟩).2.2.2.1 7 (by decide)

/-- C10: `group_add_regex` dereferences its group pointer with no null
guard, so a null group reference is an error (modelled `none`), both
directly and when the context fan-out reaches it; the address-list
operations treat a null group as a silent no-op (the removal merely
reporting -1). -/
theorem group_add_regex_null_error (E : Collab) (s : Option String)
    (flags : Int) (err : Buffer) (st : State) (a : List Address)
    (rest : Ctx) :
    group_add_regex E none s flags err st = none ∧
    mutt_group_context_add_regex E (none :: rest) s flags err st = none ∧
    (∀ p pre, E.compileOk p = true → (∀ g ∈ pre, live_ref st g) →
      mutt_group_context_add_regex E (pre ++ none :: rest) (some p)
        flags err st = none) ∧
    group_add_addrlist E none a st = st ∧
    group_remove_addrlist none a st = (-1, st) :=
  ⟨rfl, rfl,
   fun p pre hok hlive =>
     context_add_regex_reaches_null E p flags rest hok pre st err hlive,
   rfl, rfl⟩

/-- Witness for C10: a context whose second node is null crashes on a
valid pattern even though its first group is live. -/
theorem group_add_regex_null_error_witness :
    mutt_group_context_add_regex
      ⟨fun _ => true, fun p => p, fun _ _ _ => false, fun _ inc => inc⟩
      ([some 0] ++ none :: []) (some ("x")) 0 none
      ⟨[(0, ⟨"g", [], []⟩)], 1⟩ = none :=
  (group_add_regex_null_error
      ⟨fun _ => true, fun p => p, fun _ _ _ => false, fun _ inc => inc⟩
      (some ("x")) 0 none ⟨[(0, ⟨"g", [], []⟩)], 1⟩ [] []).2.2.1 ("x") [some 0]
    rfl
    (by
      intro g hg
      simp at hg
      subst hg
      exact ⟨0, ⟨"g", [], []⟩, rfl, rfl⟩)

/-- C1: `mutt_group_match` is true iff the candidate matches some
pattern of the group or case-insensitively equals the mailbox of some
address; it is false on an empty group and on an absent group or
string. -/
theorem mutt_group_match_spec (E : Collab) (st : State) (s : String)
    (id : GroupId) (grp : Group) (h : st.find id = some grp) :
    (mutt_group_match E (some id) (some s) st = true ↔
      (∃ r ∈ grp.rs, E.rmatch r.pattern r.flags s = true) ∨
      (∃ ap ∈ grp.as, ∃ m, ap.mailbox = some m ∧ strcasecmpEq s m = true)) ∧
    (grp.as = [] ∧ grp.rs = [] →
      mutt_group_match E (some id) (some s) st = false) ∧
    (∀ g, mutt_group_match E g none st = false) ∧
    (∀ s', mutt_group_match E none (some s') st = false) := by
  have hm : mutt_group_match E (some id) (some s) st =
      (if mutt_regexlist_match E grp.rs s then true
       else grp.as.any fun ap =>
         match ap.mailbox with
         | none => false
         | some m => strcasecmpEq s m) := by
    simp only [mutt_group_match, h]
  refine ⟨?_, ?_, ?_, ?_⟩
  · rw [hm]
    constructor
    · intro htrue
      by_cases hr : mutt_regexlist_match E grp.rs s = true
      · left
        simpa [mutt_regexlist_match, List.any_eq_true] using hr
      · rw [if_neg hr] at htrue
        right
        obtain ⟨ap, hap, hpred⟩ := List.any_eq_true.mp htrue
        cases hmb : ap.mailbox with
        | none => rw [hmb] at hpred; simp at hpred
        | some m =>
          rw [hmb] at hpred
          exact ⟨ap, hap, m, hmb, hpred⟩
    · intro hor
      rcases hor with hl | hrr
      · have hr : mutt_regexlist_match E grp.rs s = true := by
          simpa [mutt_regexlist_match, List.any_eq_true] using hl
        simp [hr]
      · obtain ⟨ap, hap, m, hmb, hcmp⟩ := hrr
        by_cases hr : mutt_regexlist_match E grp.rs s = true
        · simp [hr]
        · rw [if_neg hr]
          apply List.any_eq_true.mpr
          exact ⟨ap, hap, by rw [hmb]; exact hcmp⟩
  · rintro ⟨has, hrs⟩
    rw [hm, has, hrs]
    simp [mutt_regexlist_match]
  · intro g
    cases g <;> rfl
  · intro s'
    rfl

/-- Witness for C1: a candidate differing only in case from a stored
mailbox matches. -/
theorem mutt_group_match_spec_witness :
    mutt_group_match
      ⟨fun _ => true, fun q => q, fun _ _ _ => false, fun _ inc => inc⟩
      (some 0) (some ("ALICE@example.com"))
      ⟨[(0, ⟨"team", [⟨some ("alice@example.com")⟩], []⟩)], 1⟩ = true :=
  (mutt_group_match_spec
      ⟨fun _ => true, fun q => q, fun _ _ _ => false, fun _ inc => inc⟩
      ⟨[(0, ⟨"team", [⟨some ("alice@example.com")⟩], []⟩)], 1⟩
      ("ALICE@example.com") 0 ⟨"team", [⟨some ("alice@example.com")⟩], []⟩
      (by decide)).1.mpr
    (Or.inr ⟨⟨some ("alice@example.com")⟩, by decide, "alice@example.com",
      rfl, by decide⟩)

/-- C8: `group_add_addrlist` appends, at the tail of the group's
existing addresses, the deep copy of the incoming list as stripped by
`mutt_remove_xrefs` against the existing addresses; other groups are
untouched; a null group or null list is a no-op. -/
theorem group_add_addrlist_spec (E : Collab) (st : State) (id : GroupId)
    (grp : Group) (a : List Address) (h : st.find id = some grp)
    (ha : a ≠ []) :
    (group_add_addrlist E (some id) a st).find id =
      some { grp with
        as := grp.as ++ E.removeXrefs grp.as (mutt_addr_copy_list a) } ∧
    (∀ id' grp', id' ≠ id → st.find id' = some grp' →
      (group_add_addrlist E (some id) a st).find id' = some grp') ∧
    (∀ a', group_add_addrlist E none a' st = st) ∧
    group_add_addrlist E (some id) [] st = st := by
  have hdef : group_add_addrlist E (some id) a st =
      st.update id { grp with
        as := grp.as ++ E.removeXrefs grp.as (mutt_addr_copy_list a) } := by
    simp [group_add_addrlist, ha, h]
  refine ⟨?_, ?_, fun a' => rfl, by simp [group_add_addrlist]⟩
  · rw [hdef]
    exact find_update_self h
  · intro id' grp' hne hf'
    rw [hdef, find_update_ne hne]
    exact hf'

/-- Witness for C8 with two live groups and a two-address incoming
list, under the identity xref stripper. -/
theorem group_add_addrlist_spec_witness :
    (group_add_addrlist
        ⟨fun _ => true, fun q => q, fun _ _ _ => false, fun _ inc => inc⟩
        (some 0) [⟨some ("b")⟩]
        ⟨[(0, ⟨"g1", [⟨some ("a")⟩], []⟩), (1, ⟨"g2", [], []⟩)], 2⟩).find 0 =
      some ⟨"g1", [⟨some ("a")⟩, ⟨some ("b")⟩], []⟩ :=
  (group_add_addrlist_spec
      ⟨fun _ => true, fun q => q, fun _ _ _ => false, fun _ inc => inc⟩
      ⟨[(0, ⟨"g1", [⟨some ("a")⟩], []⟩), (1, ⟨"g2", [], []⟩)], 2⟩ 0
      ⟨"g1", [⟨some ("a")⟩], []⟩ [⟨some ("b")⟩] (by decide) (by decide)).1

/-- C6: `mutt_group_context_add_regex` with a pattern that fails to
compile stops at the first group, returns -1, writes the diagnostic to
`err`, and leaves the whole registry state (hence every group's pattern
set) unchanged. -/
theorem mutt_group_context_add_regex_invalid (E : Collab) (st : State)
    (p : String) (flags : Int) (err : Buffer) (i1 : GroupId) (g1 : Group)
    (rest : Ctx) (hn : (st.groups.map (fun q => q.1)).Nodup)
    (h1 : st.find i1 = some g1) (hbad : E.compileOk p = false) :
    mutt_group_context_add_regex E (some i1 :: rest) (some p) flags err
      st = some (-1, st, some (E.diag p)) := by
  have hstep : group_add_regex E (some i1) (some p) flags err st =
      some (-1, st.update i1 g1, some (E.diag p)) := by
    simp [group_add_regex, h1, mutt_regexlist_add, hbad]
  simp only [mutt_group_context_add_regex]
  rw [hstep, update_self_eq hn h1]
  simp

/-- Witness for C6: an uncompilable pattern applied to a context with
groups [g1, g2] fails and leaves both pattern sets unchanged. -/
theorem mutt_group_context_add_regex_invalid_witness :
    mutt_group_context_add_regex
      ⟨fun _ => false, fun q => q, fun _ _ _ => false, fun _ inc => inc⟩
      [some 0, some 1] (some ("(")) 0 none
      ⟨[(0, ⟨"g1", [], [⟨"x", 0⟩]⟩), (1, ⟨"g2", [], [⟨"y", 0⟩]⟩)], 2⟩ =
      some (-1,
        ⟨[(0, ⟨"g1", [], [⟨"x", 0⟩]⟩), (1, ⟨"g2", [], [⟨"y", 0⟩]⟩)], 2⟩,
        some ("(")) :=
  mutt_group_context_add_regex_invalid
    ⟨fun _ => false, fun q => q, fun _ _ _ => false, fun _ inc => inc⟩
    ⟨[(0, ⟨"g1", [], [⟨"x", 0⟩]⟩), (1, ⟨"g2", [], [⟨"y", 0⟩]⟩)], 2⟩
    ("(") 0 none 0 ⟨"g1", [], [⟨"x", 0⟩]⟩ [some 1] (by decide) (by decide)
    rfl

/-- C3 counterexample: removing a null address list through a context
whose first group is empty returns -1 but also DESTROYS that group: the
state changes and the group vanishes from the registry, contradicting
the claim that no group is modified, destroyed, or removed. -/
theorem context_remove_null_list_cex :
    (mutt_group_context_remove_addrlist [some 0] []
        ⟨[(0, ⟨"g", [], []⟩)], 1⟩).1 = -1 ∧
    (mutt_group_context_remove_addrlist [some 0] []
        ⟨[(0, ⟨"g", [], []⟩)], 1⟩).2 ≠ ⟨[(0, ⟨"g", [], []⟩)], 1⟩ ∧
    ((mutt_group_context_remove_addrlist [some 0] []
        ⟨[(0, ⟨"g", [], []⟩)], 1⟩).2).find 0 = none := by
  decide

/-- C3 amended: a context-level remove with an absent argument returns
failure and modifies no group's addresses or patterns, but the
destroy-on-empty check still runs on the first node of the context
(even after the failed removal), so an already-empty first group is
destroyed and removed from the registry; nodes after the first are not
visited.  An empty context returns success. -/
theorem context_remove_null_list_amended :
    (∀ (g : Option GroupId) (rest : Ctx) (st : State),
      mutt_group_context_remove_addrlist (g :: rest) [] st =
        (-1, if empty_group_test st g then group_remove g st else st)) ∧
    (∀ (st : State) (a : List Address),
      mutt_group_context_remove_addrlist [] a st = (0, st)) ∧
    (∀ (st : State) (rest : Ctx) (id : GroupId) (grp : Group),
      (st.groups.map (fun p => p.1)).Nodup → st.find id = some grp →
      mutt_group_context_remove_regex (some id :: rest) none st =
        some (-1,
          if empty_group_test st (some id) then group_remove (some id) st
          else st)) := by
  refine ⟨?_, fun st a => rfl, ?_⟩
  · intro g rest st
    cases g with
    | none => simp [mutt_group_context_remove_addrlist,
        group_remove_addrlist]
    | some id => simp [mutt_group_context_remove_addrlist,
        group_remove_addrlist]
  · intro st rest id grp hn h
    have hupd : st.update id grp = st := update_self_eq hn h
    have hstep : group_remove_regex (some id) none st = some (-1, st) := by
      simp [group_remove_regex, h, mutt_regexlist_remove, hupd]
    simp [mutt_group_context_remove_regex, hstep]

/-- Witness for the C3 amended theorem: an empty first group is
destroyed by an absent-argument removal, for both the address-list and
the regex flavours. -/
theorem context_remove_null_list_amended_witness :
    mutt_group_context_remove_addrlist [some 0] []
        ⟨[(0, ⟨"g", [], []⟩)], 1⟩ = (-1, ⟨[], 1⟩) ∧
    mutt_group_context_remove_regex [some 0] none
        ⟨[(0, ⟨"g", [], []⟩)], 1⟩ = some (-1, ⟨[], 1⟩) := by
  constructor
  · have h := context_remove_null_list_amended.1 (some 0) []
      ⟨[(0, ⟨"g", [], []⟩)], 1⟩
    rw [h]
    decide
  · have h := context_remove_null_list_amended.2.2
      ⟨[(0, ⟨"g", [], []⟩)], 1⟩ [] 0 ⟨"g", [], []⟩ (by decide) (by decide)
    rw [h]
    decide

/-- C4: `mutt_pattern_group` is idempotent: when the first call on a
well-formed registry returns group `r1` and state `st1`, the second
call with the same name returns the identical group and leaves the
state unchanged; allocation happens only when the name was absent (one
new entry), never when present; and a second, distinct name resolves to
a distinct group. -/
theorem mutt_pattern_group_idempotent (st : State) (n n2 : String)
    (hwf : WF st) (hne : n ≠ n2) (r1 : Option GroupId) (st1 : State)
    (hcall : mutt_pattern_group (some n) st = (r1, st1)) :
    mutt_pattern_group (some n) st1 = (r1, st1) ∧
    (st.findName n = none → st1.groups.length = st.groups.length + 1) ∧
    (∀ i, st.findName n = some i → st1 = st) ∧
    (mutt_pattern_group (some n2) st1).1 ≠ r1 := by
  cases hf : st.findName n with
  | some id =>
    have hfirst : mutt_pattern_group (some n) st = (some id, st) := by
      simp [mutt_pattern_group, hf]
    rw [hfirst] at hcall
    injection hcall with hr hst
    subst hr
    subst hst
    refine ⟨hfirst, ?_, fun i _ => rfl, ?_⟩
    · intro hnone
      exact Option.noConfusion hnone
    · cases hf2 : st.findName n2 with
      | some i2 =>
        simp only [mutt_pattern_group, hf2]
        intro hc
        simp only [Option.some.injEq] at hc
        rw [hc] at hf2
        exact distinct_names_distinct_ids hwf hne hf hf2
      | none =>
        simp only [mutt_pattern_group, hf2]
        intro hc
        simp only [Option.some.injEq] at hc
        obtain ⟨e, he, hei, _⟩ := findName_some_elim hf
        have hlt := hwf.2.2 e he
        rw [hei, ← hc] at hlt
        exact Nat.lt_irrefl _ hlt
  | none =>
    have hfirst : mutt_pattern_group (some n) st =
        (some st.nextId,
         ⟨st.groups ++ [(st.nextId, ⟨n, [], []⟩)], st.nextId + 1⟩) := by
      simp [mutt_pattern_group, hf]
    rw [hfirst] at hcall
    injection hcall with hr hst
    subst hr
    subst hst
    have hfn1 : State.findName
        ⟨st.groups ++ [(st.nextId, ⟨n, [], []⟩)], st.nextId + 1⟩ n =
        some st.nextId := findName_append_new hf
    refine ⟨?_, ?_, ?_, ?_⟩
    · simp [mutt_pattern_group, hfn1]
    · intro _
      simp
    · intro i hi
      exact Option.noConfusion hi
    · cases hf2 : State.findName
          ⟨st.groups ++ [(st.nextId, ⟨n, [], []⟩)], st.nextId + 1⟩ n2 with
      | some i2 =>
        simp only [mutt_pattern_group, hf2]
        intro hc
        simp only [Option.some.injEq] at hc
        obtain ⟨e2, he2, he2i, he2n⟩ := findName_some_elim hf2
        rcases List.mem_append.mp he2 with hmem | hmem
        · have hlt := hwf.2.2 e2 hmem
          rw [he2i, hc] at hlt
          exact Nat.lt_irrefl _ hlt
        · simp only [List.mem_singleton] at hmem
          rw [hmem] at he2n
          exact hne he2n
      | none =>
        simp only [mutt_pattern_group, hf2]
        intro hc
        simp only [Option.some.injEq] at hc
        exact Nat.succ_ne_self _ hc

/-- C2: a context-level address removal that succeeds leaves no empty
group alive among the context's references (destroy-on-empty); in
particular, a group holding no patterns and no other addresses, after a
context-level add of one address and a context-level remove of the same
address, is destroyed and absent from the registry both by id and by
name (the xref stripper is only assumed to return records drawn from
its input). -/
theorem context_remove_destroys_empty_group (E : Collab) (st : State)
    (id : GroupId) (n : String) (a0 : Address) (hwf : WF st)
    (hfind : st.find id = some ⟨n, [], []⟩)
    (hX : ∀ x ∈ E.removeXrefs [] (mutt_addr_copy_list [a0]), x ∈ [a0]) :
    (∀ ctx a stx st',
      mutt_group_context_remove_addrlist ctx a stx = (0, st') →
      ∀ i grp, some i ∈ ctx → st'.find i = some grp →
        ¬(grp.as = [] ∧ grp.rs = [])) ∧
    (∀ ctx s stx st',
      mutt_group_context_remove_regex ctx s stx = some (0, st') →
      ∀ i grp, some i ∈ ctx → st'.find i = some grp →
        ¬(grp.as = [] ∧ grp.rs = [])) ∧
    (mutt_group_context_remove_addrlist [some id] [a0]
        (mutt_group_context_add_addrlist E [some id] [a0] st)).1 = 0 ∧
    ((mutt_group_context_remove_addrlist [some id] [a0]
        (mutt_group_context_add_addrlist E [some id] [a0] st)).2).find id =
      none ∧
    ((mutt_group_context_remove_addrlist [some id] [a0]
        (mutt_group_context_add_addrlist E [some id] [a0] st)).2).findName
      n = none := by
  have hst1 : mutt_group_context_add_addrlist E [some id] [a0] st =
      st.update id ⟨n, E.removeXrefs [] (mutt_addr_copy_list [a0]), []⟩ := by
    have hone : mutt_group_context_add_addrlist E [some id] [a0] st =
        group_add_addrlist E (some id) [a0] st := rfl
    rw [hone]
    simp [group_add_addrlist, hfind]
  have hAf : List.filter (fun x => !decide (x.mailbox = a0.mailbox))
      (E.removeXrefs [] (mutt_addr_copy_list [a0])) = [] := by
    rw [List.filter_eq_nil_iff]
    intro x hx
    have hxa := hX x hx
    simp at hxa
    simp [hxa]
  have hst1find : (st.update id
      ⟨n, E.removeXrefs [] (mutt_addr_copy_list [a0]), []⟩).find id =
      some ⟨n, E.removeXrefs [] (mutt_addr_copy_list [a0]), []⟩ :=
    find_update_self hfind
  have hr : group_remove_addrlist (some id) [a0]
      (st.update id ⟨n, E.removeXrefs [] (mutt_addr_copy_list [a0]), []⟩) =
      (0, (st.update id
        ⟨n, E.removeXrefs [] (mutt_addr_copy_list [a0]), []⟩).update id
        ⟨n, [], []⟩) := by
    simp [group_remove_addrlist, hst1find, mutt_addr_remove_from_list, hAf]
  have hrfind : ((st.update id
      ⟨n, E.removeXrefs [] (mutt_addr_copy_list [a0]), []⟩).update id
      ⟨n, [], []⟩).find id = some ⟨n, [], []⟩ :=
    find_update_self hst1find
  have hempt : empty_group_test ((st.update id
      ⟨n, E.removeXrefs [] (mutt_addr_copy_list [a0]), []⟩).update id
      ⟨n, [], []⟩) (some id) = true := by
    simp [empty_group_test, hrfind]
  have hres : mutt_group_context_remove_addrlist [some id] [a0]
      (st.update id ⟨n, E.removeXrefs [] (mutt_addr_copy_list [a0]), []⟩) =
      (0, group_remove (some id) ((st.update id
        ⟨n, E.removeXrefs [] (mutt_addr_copy_list [a0]), []⟩).update id
        ⟨n, [], []⟩)) := by
    rw [remove_addrlist_cons, hr]
    simp [hempt, mutt_group_context_remove_addrlist]
  refine ⟨remove_addrlist_no_empty_survivor,
    remove_regex_no_empty_survivor, ?_, ?_, ?_⟩
  · rw [hst1, hres]
  · rw [hst1, hres]
    exact find_remove_self
  · rw [hst1, hres]
    have hgroups : (group_remove (some id) ((st.update id
        ⟨n, E.removeXrefs [] (mutt_addr_copy_list [a0]), []⟩).update id
        ⟨n, [], []⟩)).groups =
        st.groups.filter (fun p => p.1 ≠ id) := by
      simp only [group_remove, State.update]
      rw [filter_ne_update, filter_ne_update]
    unfold State.findName
    rw [hgroups]
    have hnone : (st.groups.filter (fun p => p.1 ≠ id)).find?
        (fun p => p.2.name = n) = none := by
      rw [List.find?_eq_none]
      intro q hq
      have hqn := findName_remove_unique hwf hfind q hq
      simpa using hqn
    rw [hnone]
    rfl

/-- Witness for C2: group "temp" with one freshly added address; the
removal of that address destroys the group. -/
theorem context_remove_destroys_empty_group_witness :
    ((mutt_group_context_remove_addrlist [some 0] [⟨some ("x")⟩]
        (mutt_group_context_add_addrlist
          ⟨fun _ => true, fun q => q, fun _ _ _ => false, fun _ inc => inc⟩
          [some 0] [⟨some ("x")⟩]
          ⟨[(0, ⟨"temp", [], []⟩)], 1⟩)).2).find 0 = none :=
  (context_remove_destroys_empty_group
      ⟨fun _ => true, fun q => q, fun _ _ _ => false, fun _ inc => inc⟩
      ⟨[(0, ⟨"temp", [], []⟩)], 1⟩ 0 ("temp") ⟨some ("x")⟩ (by decide)
      (by decide) (fun x hx => hx)).2.2.2.1

/-- Witness for C4: resolving a fresh name and resolving again, plus a
distinct second name. -/
theorem mutt_pattern_group_idempotent_witness :
    mutt_pattern_group (some ("a")) ⟨[(0, ⟨"a", [], []⟩)], 1⟩ =
      (some 0, ⟨[(0, ⟨"a", [], []⟩)], 1⟩) ∧
    (mutt_pattern_group (some ("b")) ⟨[(0, ⟨"a", [], []⟩)], 1⟩).1 ≠
      some 0 := by
  have h := mutt_pattern_group_idempotent ⟨[], 0⟩ ("a") ("b") (by decide)
    (by decide) (some 0) ⟨[(0, ⟨"a", [], []⟩)], 1⟩ (by decide)
  exact ⟨h.1, h.2.2.2⟩

end MuttGroup
